/-
  Verification of the ChatBot retrieval core against its specification.

  Shallow embedding of:
  * src/services/base/implements/MultiQueryRetriever.py  (query variation
    generation and multi-query fusion),
  * src/config/cache/redis_cache.py                      (semantic query cache),
  * src/chatbot_memory.py  search_relevant_documents     (similarity ranking),
  * src/config/rag_config.py                             (configuration checks),
  * src/config/db/services.py  find_similar_chunks_by_embedding
    (vector search with threshold).

  Python strings are modelled through their character lists; floats are
  modelled as rationals, with `sqrt` supplied as an explicit parameter where
  the code calls `np.linalg.norm` (floating point square roots are not exactly
  representable anyway, and no claim depends on the value of a square root).
  External collaborators (the Redis client, the LLM, the embedding models,
  Python's string `hash` and `hashlib.md5`) are passed in as explicit
  parameters or `Except`/`Option`-valued inputs.
-/
import Mathlib

/-! ## Python string primitives

Character-list models of the Python `str` operations the retrieval core uses:
`str.strip`, `str.split('\n')`, `str.startswith`, slicing `[3:]` and
`str.replace`.  They are written over `List Char` so that every definition
is executable and kernel-reducible. -/

/-- Whitespace characters stripped by Python's `str.strip()`. -/
def pyIsSpace (c : Char) : Bool :=
  c = ' ' || c = '\t' || c = '\n' || c = '\r' || c = '\x0b' || c = '\x0c'

/-- Model of Python `str.strip()`. -/
def pyStrip (s : String) : String :=
  ⟨((s.data.dropWhile pyIsSpace).reverse.dropWhile pyIsSpace).reverse⟩

/-- Split a character list at newline characters; `Python str.split('\n')`
keeps empty pieces, and splitting the empty string yields one empty piece. -/
def splitNl : List Char → List (List Char)
  | [] => [[]]
  | c :: cs =>
    if c = '\n' then [] :: splitNl cs
    else
      match splitNl cs with
      | [] => [[c]]
      | h :: t => (c :: h) :: t

/-- Model of Python `str.split('\n')`. -/
def pySplitNl (s : String) : List String :=
  (splitNl s.data).map (fun l => ⟨l⟩)

/-- Model of Python `str.startswith(p)`. -/
def pyStarts (p s : String) : Bool :=
  p.data.isPrefixOf s.data

/-- Model of Python slicing `s[n:]` (drop the first `n` characters). -/
def pyDrop (s : String) (n : Nat) : String :=
  ⟨s.data.drop n⟩

/-- If `pat` is a prefix of `s`, return the remainder of `s` after it. -/
def stripPre : List Char → List Char → Option (List Char)
  | [], s => some s
  | _ :: _, [] => none
  | p :: ps, d :: ds => if p = d then stripPre ps ds else none

/-- Replace every occurrence of the nonempty pattern `pat` by `rep`, as
Python `str.replace` does.  The recursion is fuelled by the length of the
string: every step consumes at least one character, so `s.length` fuel
always suffices. -/
def replaceFuel (pat rep : List Char) : Nat → List Char → List Char
  | 0, s => s
  | fuel + 1, s =>
    match s with
    | [] => []
    | d :: ds =>
      match stripPre pat s with
      | some rest => rep ++ replaceFuel pat rep fuel rest
      | none => d :: replaceFuel pat rep fuel ds

/-- Model of Python `s.replace(pat, rep)` for a nonempty pattern (the
patterns used by the cache are `"query:"` and `"query_emb:"`). -/
def pyReplace (s pat rep : String) : String :=
  match pat.data with
  | [] => s
  | _ :: _ => ⟨replaceFuel pat.data rep.data s.data.length s.data⟩

/-! ## MultiQueryRetriever

Embedding of `src/services/base/implements/MultiQueryRetriever.py`.
Metadata dictionaries are modelled by the fields the retriever reads;
`search_function` is an `Except`-valued function (an exception raised by the
search is an `error` value); the LLM response used by
`generate_query_variations` is an `Except`-valued input, and Python's
builtin `hash` on strings is an explicit parameter `hashStr`. -/

namespace MultiQuery

/-- The metadata dictionary attached to a retrieval result; the retriever
itself only ever reads `chunk_id` (absent keys read as `None`). -/
structure RMeta where
  chunkId : Option Int
  sourceFile : String
deriving DecidableEq, Repr, Inhabited

/-- A `(content, score, metadata)` triple returned by the search function. -/
abbrev Triple := String × ℚ × RMeta

/-- The deduplication key: `metadata.get('chunk_id')`, falling back to
`hash(content)` when the metadata has no chunk id. -/
def chunkKey (hashStr : String → Int) (t : Triple) : Int :=
  match t.2.2.chunkId with
  | some i => i
  | none => hashStr t.1

/-- Python-dict model: update the value stored at `k` in place, or append
a fresh binding at the end (insertion order is preserved, as for `dict`). -/
def updateAssoc (k : Int) (v : Triple) : List (Int × Triple) → List (Int × Triple)
  | [] => [(k, v)]
  | (k', v') :: rest =>
    if k' = k then (k, v) :: rest else (k', v') :: updateAssoc k v rest

/-- Python-dict model: first value bound to `k`. -/
def lookupAssoc (k : Int) : List (Int × Triple) → Option Triple
  | [] => none
  | (k', v') :: rest => if k' = k then some v' else lookupAssoc k rest

/-- One iteration of the result-processing loop of
`retrieve_with_multi_query`: deduplicate by chunk key and combine scores
according to the aggregation strategy (`'max'`, `'average'`, `'weighted'`,
anything else falling back to max).  `idx` is the index of the query
variation being processed. -/
def processTriple (hashStr : String → Int) (strategy : String) (idx : Nat)
    (d : List (Int × Triple)) (t : Triple) : List (Int × Triple) :=
  match lookupAssoc (chunkKey hashStr t) d with
  | none => updateAssoc (chunkKey hashStr t) t d
  | some (_, existingScore, _) =>
    updateAssoc (chunkKey hashStr t)
      (t.1,
        if strategy = "max" then max existingScore t.2.1
        else if strategy = "average" then (existingScore + t.2.1) / 2
        else if strategy = "weighted" then
          existingScore + t.2.1 * (1 / ((idx : ℚ) + 1))
        else max existingScore t.2.1,
        t.2.2) d

/-- Processing of a single query variation: a raised exception
(`Except.error`) is caught, logged and skipped (`continue`); a returned
result list is folded into the deduplication dict. -/
def processVariation (hashStr : String → Int) (strategy : String) (idx : Nat)
    (d : List (Int × Triple)) (res : Except Unit (List Triple)) :
    List (Int × Triple) :=
  match res with
  | .error _ => d
  | .ok triples => triples.foldl (processTriple hashStr strategy idx) d

/-- The `for idx, q in enumerate(query_variations)` loop of
`retrieve_with_multi_query`, carrying the running variation index. -/
def fuseAux (hashStr : String → Int) (strategy : String)
    (searchFn : String → Nat → Except Unit (List Triple)) (topK : Nat) :
    Nat → List (Int × Triple) → List String → List (Int × Triple)
  | _, d, [] => d
  | idx, d, q :: rest =>
    fuseAux hashStr strategy searchFn topK (idx + 1)
      (processVariation hashStr strategy idx d (searchFn q (topK * 2))) rest

/-- The deduplication dict built by `retrieve_with_multi_query` over all
query variations (each variation is searched with `top_k * 2`). -/
def fuseDict (hashStr : String → Int) (strategy : String)
    (searchFn : String → Nat → Except Unit (List Triple)) (topK : Nat)
    (variations : List String) : List (Int × Triple) :=
  fuseAux hashStr strategy searchFn topK 0 [] variations

/-- Scores compare descending: `sort(key=lambda x: x[1], reverse=True)`. -/
def scoreGe (a b : Triple) : Prop := b.2.1 ≤ a.2.1

instance : DecidableRel scoreGe := fun a b => inferInstanceAs (Decidable (b.2.1 ≤ a.2.1))

instance : IsTotal Triple scoreGe := ⟨fun a b => le_total b.2.1 a.2.1⟩

instance : IsTrans Triple scoreGe := ⟨fun _ _ _ h h' => le_trans h' h⟩

/-- Final ranking of `retrieve_with_multi_query`: the dict values in
insertion order, stably sorted by descending score, truncated to `top_k`.
(Python's `list.sort` is stable; so is insertion sort.) -/
def rankResults (d : List (Int × Triple)) (topK : Nat) : List Triple :=
  (List.insertionSort scoreGe (d.map (·.2))).take topK

/-- The tuple of banned line starts
`('1.', '2.', '3.', '4.', '5.', '-', '*')` from
`generate_query_variations`: such lines are dropped by the parsing
comprehension. -/
def bannedStart (l : String) : Bool :=
  ["1.", "2.", "3.", "4.", "5.", "-", "*"].any (fun p => pyStarts p l)

/-- The numbering-removal loop: for `i` from 1 to 9, if the line starts with
`"i. "` or `"i) "`, drop the first three characters (and stop). -/
def stripEnum (v : String) : String :=
  match (List.range' 1 9).find?
      (fun i => pyStarts (toString i ++ ". ") v || pyStarts (toString i ++ ") ") v) with
  | some _ => pyDrop v 3
  | none => v

/-- The variation parsing of `generate_query_variations`: split the LLM text
into lines, strip each, drop empties and banned starts, remove numbering,
and drop variations that became empty. -/
def parseVariations (text : String) : List String :=
  let variations :=
    ((pySplitNl (pyStrip text)).map pyStrip).filter
      (fun l => l ≠ "" && !bannedStart l)
  (variations.map stripEnum).filter (· ≠ "")

/-- `generate_query_variations`: when multi-query is disabled return just the
original query; otherwise ask the LLM (an `Except`-valued collaborator: any
exception — timeout, unavailability, malformed response object — is the
`error` case, caught by the surrounding `try`), parse the variations, keep at
most `num_variations` of them, and prepend the original query. -/
def generateQueryVariations (multiQueryEnabled : Bool) (numVariations : Nat)
    (llmResponse : Except Unit String) (query : String) : List String :=
  if !multiQueryEnabled then [query]
  else
    match llmResponse with
    | .error _ => [query]
    | .ok text => query :: (parseVariations text).take numVariations

/-- `retrieve_with_multi_query`: generate variations, search each with
`top_k * 2` (failures skipped), deduplicate, rank, truncate to `top_k`. -/
def retrieveWithMultiQuery (hashStr : String → Int) (strategy : String)
    (multiQueryEnabled : Bool) (numVariations : Nat)
    (llmResponse : Except Unit String) (query : String)
    (searchFn : String → Nat → Except Unit (List Triple)) (topK : Nat) :
    List Triple :=
  rankResults
    (fuseDict hashStr strategy searchFn topK
      (generateQueryVariations multiQueryEnabled numVariations llmResponse query))
    topK

end MultiQuery

/-! ## RedisCache

Embedding of `src/config/cache/redis_cache.py`.  The Redis backend is a
key-value store modelled as an insertion-ordered association list of string
keys (TTL expiry is not modelled: an entry present in the store is an
unexpired entry, which is all the claims need).  A backend whose operations
raise `RedisError` is modelled by the `failing` flag of the client; JSON
serialisation round-trips are modelled structurally by the `CacheVal` sum.
`hashlib.md5(...).hexdigest()` is an explicit parameter `md5`, the
sentence-transformers encoder is an `Option`-valued parameter (`none` models
`encode` raising, which `_compute_query_embedding` catches), and `np.sqrt`
inside the norm computation is the explicit parameter `sqrtQ`. -/

namespace Cache

/-- A stored JSON payload: either a serialised result list (under a
`query:*` key) or a serialised embedding (under a `query_emb:*` key). -/
inductive CacheVal where
  | results (r : List (String × ℚ))
  | emb (v : List ℚ)
deriving DecidableEq, Repr

/-- A connected Redis client: its keyspace, and whether its operations
currently raise `RedisError`. -/
structure Client where
  store : List (String × CacheVal)
  failing : Bool
deriving DecidableEq, Repr

/-- The `RedisCache` object state: `enabled`/`client` as set up by
`__init__`/`_initialize_client`, the semantic-cache configuration, the
embedding model (`none` when initialisation failed), and
`decode_responses` (default `True`). -/
structure RedisCache where
  enabled : Bool
  client : Option Client
  semanticEnabled : Bool
  embModel : Option (String → Option (List ℚ))
  semanticThreshold : ℚ
  decodeResponses : Bool

/-- `_initialize_client`: on a connection/ping failure the exception is
caught, caching is disabled and the client set to `None`. -/
def initClient (c : RedisCache) (conn : Except Unit Client) : RedisCache :=
  match conn with
  | .ok cl => { c with client := some cl }
  | .error _ => { c with enabled := false, client := none }

/-- `np.dot` on rational vectors. -/
def dotQ (v w : List ℚ) : ℚ :=
  (v.zip w).foldl (fun a p => a + p.1 * p.2) 0

/-- `_cosine_similarity`: `dot / (norm * norm)` with a zero-norm guard;
`np.linalg.norm v = sqrt (dot v v)`, with `sqrt` passed explicitly. -/
def cosineSimilarity (sqrtQ : ℚ → ℚ) (v w : List ℚ) : ℚ :=
  let normProduct := sqrtQ (dotQ v v) * sqrtQ (dotQ w w)
  if normProduct = 0 then 0 else dotQ v w / normProduct

/-- `_generate_cache_key("query", query, top_k=top_k, search_type=search_type)`:
the keyword arguments are serialised in sorted key order
(`search_type` before `top_k`), joined with `:` and hashed. -/
def generateCacheKey (md5 : String → String) (query : String) (topK : Nat)
    (searchType : String) : String :=
  "query:" ++
    md5 (query ++ ":search_type:" ++ searchType ++ ":top_k:" ++ toString topK)

/-- Redis `GET`. -/
def getStore : List (String × CacheVal) → String → Option CacheVal
  | [], _ => none
  | kv :: rest, k => if kv.1 = k then some kv.2 else getStore rest k

/-- Redis `SETEX` (expiry elided): overwrite the value held at the key, or
append a fresh binding (the store never holds a key twice). -/
def setStore : List (String × CacheVal) → String → CacheVal → List (String × CacheVal)
  | [], k, v => [(k, v)]
  | kv :: rest, k, v =>
    if kv.1 = k then (k, v) :: rest else kv :: setStore rest k v

/-- `_compute_query_embedding`: `None` unless semantic caching is enabled and
a model is loaded; an `encode` exception is caught and becomes `None`. -/
def computeQueryEmbedding (c : RedisCache) (query : String) : Option (List ℚ) :=
  if !c.semanticEnabled then none
  else
    match c.embModel with
    | none => none
    | some enc => enc query

/-- The scan loop of `_semantic_search` over the keys matching the embedding
pattern, tracking `(best_similarity, best_cache_key)`.  Reading a payload
that is not an embedding list makes `np.array(json.loads(...))` unusable and
the similarity computation raise (`error`); when a new best match is found
with `decode_responses=True` the keys are `str` and `emb_key.decode('utf-8')`
raises `AttributeError` (`error`).  Any such error is caught by the
enclosing `except` of `_semantic_search`. -/
def semanticLoop (sqrtQ : ℚ → ℚ) (decodeResponses : Bool)
    (store : List (String × CacheVal)) (qEmb : List ℚ) :
    List String → (ℚ × Option String) → Except Unit (ℚ × Option String)
  | [], best => .ok best
  | k :: rest, best =>
    match getStore store k with
    | none => semanticLoop sqrtQ decodeResponses store qEmb rest best
    | some (.results _) => .error ()
    | some (.emb e) =>
      let similarity := cosineSimilarity sqrtQ qEmb e
      if best.1 < similarity then
        if decodeResponses then .error ()
        else
          semanticLoop sqrtQ decodeResponses store qEmb rest
            (similarity, some (pyReplace k "query_emb:" "query:"))
      else semanticLoop sqrtQ decodeResponses store qEmb rest best

/-- `_semantic_search`: embed the query, scan all keys matching
`query_emb:{top_k}:{search_type}:*`, keep the best match, and return its
cached results when the best similarity reaches the threshold.  The whole
body is wrapped in `try/except`, so any raised error yields `None`. -/
def semanticSearch (sqrtQ : ℚ → ℚ) (c : RedisCache)
    (cl : Client) (query : String) (topK : Nat) (searchType : String) :
    Option (List (String × ℚ)) :=
  match computeQueryEmbedding c query with
  | none => none
  | some qEmb =>
    let pattern := "query_emb:" ++ toString topK ++ ":" ++ searchType ++ ":"
    let embeddingKeys := (cl.store.map (·.1)).filter (fun k => pyStarts pattern k)
    if embeddingKeys = [] then none
    else
      match semanticLoop sqrtQ c.decodeResponses cl.store qEmb embeddingKeys (0, none) with
      | .error _ => none
      | .ok (bestSimilarity, bestCacheKey) =>
        if c.semanticThreshold ≤ bestSimilarity then
          match bestCacheKey with
          | none => none
          | some bk =>
            match getStore cl.store bk with
            | some (.results r) => some r
            | _ => none
        else none

/-- `get_query_results`: disabled or client-less caches always miss; a
`RedisError` from the backend is caught and becomes a miss; otherwise try the
exact key and then, when semantic caching is enabled and a model is loaded,
the semantic search.  (A `query:*` key always holds a results payload; a
mismatched payload would fail JSON-shape-wise and is modelled as a miss.) -/
def getQueryResults (md5 : String → String) (sqrtQ : ℚ → ℚ) (c : RedisCache)
    (query : String) (topK : Nat) (searchType : String) :
    Option (List (String × ℚ)) :=
  if !c.enabled then none
  else
    match c.client with
    | none => none
    | some cl =>
      if cl.failing then none
      else
        let cacheKey := generateCacheKey md5 query topK searchType
        match getStore cl.store cacheKey with
        | some (.results r) => some r
        | some (.emb _) => none
        | none =>
          if c.semanticEnabled && c.embModel.isSome then
            semanticSearch sqrtQ c cl query topK searchType
          else none

/-- `set_query_results`: returns whether the write succeeded together with
the resulting cache state.  The exact-key entry is written first; only then
is the query embedding computed and, when available, stored under the
derived `query_emb:` twin key with the same TTL.  A `RedisError` is caught
and yields `False` with the state unchanged. -/
def setQueryResults (md5 : String → String) (c : RedisCache) (query : String)
    (results : List (String × ℚ)) (topK : Nat) (searchType : String)
    (_ttl : Nat) : Bool × RedisCache :=
  if !c.enabled then (false, c)
  else
    match c.client with
    | none => (false, c)
    | some cl =>
      if cl.failing then (false, c)
      else
        let cacheKey := generateCacheKey md5 query topK searchType
        let store1 := setStore cl.store cacheKey (.results results)
        let store2 :=
          if c.semanticEnabled && c.embModel.isSome then
            match computeQueryEmbedding c query with
            | some qEmb =>
              setStore store1 (pyReplace cacheKey "query:" "query_emb:") (.emb qEmb)
            | none => store1
          else store1
        (true, { c with client := some { cl with store := store2 } })

end Cache

/-! ## ChatbotWithMemory similarity search and RAG configuration

Embedding of `search_relevant_documents` from `src/chatbot_memory.py` and of
`RAGConfig.validate` / `get_config` from `src/config/rag_config.py`. -/

namespace Memory

/-- The metadata dictionary attached to an in-memory chunk; `createdAt` is
the timestamp / age carrier (the field the spec's recency weighting would
read). -/
structure DocMeta where
  sourceFile : String
  fileType : String
  createdAt : Int
deriving DecidableEq, Repr, Inhabited

/-- The in-memory document state of `ChatbotWithMemory`: parallel lists of
chunk texts, their embedding rows (`None` before any document is added) and
their metadata.  The class maintains the three lists at equal length. -/
structure MemoryState where
  documents : List String
  embeddings : Option (List (List ℚ))
  documentMetadata : List DocMeta

/-- Stable ascending argsort of a value list: the model of `np.argsort`
(the tie order of numpy's default sort is unspecified; the model fixes the
stable order). -/
def argsortAsc (vals : List ℚ) : List Nat :=
  List.insertionSort (fun i j => vals.getD i 0 ≤ vals.getD j 0)
    (List.range vals.length)

/-- `search_relevant_documents`: embed the query, compute the cosine
similarity against every chunk embedding, rank by descending similarity
(`np.argsort(similarities)[::-1][:top_k]`) and return
`(document, similarity, metadata)` triples.  The similarity attached to each
returned chunk is the raw cosine similarity — no other quantity enters. -/
def searchRelevantDocuments (sqrtQ : ℚ → ℚ) (encode : String → List ℚ)
    (st : MemoryState) (query : String) (topK : Nat) :
    List (String × ℚ × DocMeta) :=
  match st.embeddings with
  | none => []
  | some embs =>
    if st.documents.length = 0 then []
    else
      ((argsortAsc (embs.map
          (fun row => Cache.cosineSimilarity sqrtQ (encode query) row))).reverse.take
        topK).map (fun idx =>
          (st.documents.getD idx "",
            (embs.map (fun row =>
              Cache.cosineSimilarity sqrtQ (encode query) row)).getD idx 0,
            st.documentMetadata.getD idx default))

end Memory

namespace Config

/-- The fields of `RAGConfig` that `validate` inspects (the remaining fields
never influence validation). -/
structure RAGConfig where
  chunkSize : Int
  chunkOverlap : Int
  similarityThreshold : ℚ
  recencyWeight : ℚ
  numQueryVariations : Int
  pdfDpi : Int
deriving DecidableEq, Repr

/-- `RAGConfig.validate`: starts from `valid = True` and clears it on each
failed check; out-of-range `num_query_variations` and `pdf_dpi` only log
warnings and do not clear `valid`. -/
def validate (c : RAGConfig) : Bool :=
  !(decide (c.chunkSize < 100)) &&
    !(decide (c.chunkSize ≤ c.chunkOverlap)) &&
    (decide (0 ≤ c.similarityThreshold) && decide (c.similarityThreshold ≤ 1)) &&
    (decide (0 ≤ c.recencyWeight) && decide (c.recencyWeight ≤ 1))

/-- `get_config` with the environment-loaded configuration passed in: the
configuration is validated, but a failed validation only logs a warning —
the very same configuration object is returned either way. -/
def getConfig (fromEnv : RAGConfig) : RAGConfig :=
  if validate fromEnv then fromEnv else fromEnv

end Config

/-! ## DocumentChunkService vector search

Embedding of `find_similar_chunks_by_embedding` (and its structurally
identical `find_similar_chunks_by_vintern_embedding` variant) from
`src/config/db/services.py`.  The pgvector cosine-distance operator `<=>` is
an external collaborator: each stored chunk row carries the distance the
database computes for it against the given query vector, and whether its
embedding column is non-NULL.  `ORDER BY` is modelled by a stable sort
(the tie order of the database is unspecified). -/

namespace Db

/-- A `document_chunks` row as seen by the similarity query. -/
structure ChunkRow where
  id : Nat
  embedded : Bool
  distance : ℚ
deriving DecidableEq, Repr

/-- Distances compare ascending for `ORDER BY embedding <=> :query_vector`. -/
def distLe (a b : ChunkRow) : Prop := a.distance ≤ b.distance

instance : DecidableRel distLe := fun a b => inferInstanceAs (Decidable (a.distance ≤ b.distance))

instance : IsTotal ChunkRow distLe := ⟨fun a b => le_total a.distance b.distance⟩

instance : IsTrans ChunkRow distLe := ⟨fun _ _ _ h h' => le_trans h h'⟩

/-- The similarity score the Python loop derives from a row:
`max(0.0, 1.0 - distance)`. -/
def simOf (r : ChunkRow) : ℚ := max 0 (1 - r.distance)

/-- `find_similar_chunks_by_embedding`: the SQL keeps rows whose embedding
is non-NULL, orders ascending by cosine distance and applies `LIMIT k`;
the Python loop then converts each returned distance to a similarity and
keeps only rows with `similarity >= threshold`, pairing each kept row with
its similarity. -/
def findSimilarChunksByEmbedding (table : List ChunkRow) (limit : Nat)
    (threshold : ℚ) : List (ChunkRow × ℚ) :=
  let rows := (List.insertionSort distLe (table.filter (·.embedded))).take limit
  rows.filterMap (fun r =>
    if threshold ≤ simOf r then some (r, simOf r) else none)

end Db

/-! ## Specification-side helper definitions

Definitions used to *state* the claims: per-line parsing behaviour, the
running pairwise average actually computed by the `'average'` strategy, the
flattened stream of successfully retrieved triples, fusion restricted to the
variations whose retrieval succeeded, and the existential statement of claim
C10. -/

namespace MultiQuery

/-- Per-line description of the variation parsing (used to state what
`parseVariations` does to each line): empty lines and lines starting with
`1.`–`5.`, `-` or `*` are dropped; otherwise the numbering-removal step is
applied and the line is kept unless it became empty. -/
def keepLineSpec (l : String) : Option String :=
  if l = "" || bannedStart l then none
  else if stripEnum l = "" then none else some (stripEnum l)

/-- Pairwise average, the operation `'average'` aggregation applies at each
repeated sighting of a chunk. -/
def avg2 (a b : ℚ) : ℚ := (a + b) / 2

/-- Fold the scores seen for one chunk through the running pairwise average,
starting from an optional score already held for the chunk. -/
def avgOptFold : Option ℚ → List ℚ → Option ℚ
  | none, [] => none
  | none, s :: rest => some (rest.foldl avg2 s)
  | some e, ss => some (ss.foldl avg2 e)

/-- The scores carried by the triples of `L` whose deduplication key is `k`,
in order of appearance. -/
def scoresOfKey (hashStr : String → Int) (k : Int) (L : List Triple) : List ℚ :=
  (L.filter (fun t => decide (chunkKey hashStr t = k))).map (fun t => t.2.1)

/-- The triples delivered by a search outcome (an exception delivers none). -/
def okTriples : Except Unit (List Triple) → List Triple
  | .error _ => []
  | .ok l => l

/-- The flattened stream of triples retrieved over a variation list, in
processing order (failed variations contribute nothing). -/
def flatTriples (searchFn : String → Nat → Except Unit (List Triple))
    (topK : Nat) : List String → List Triple
  | [] => []
  | q :: rest => okTriples (searchFn q (topK * 2)) ++ flatTriples searchFn topK rest

/-- Fusion over an explicit list of `(variation index, variation)` pairs:
used to state that fusing all variations equals fusing just the successful
ones (with their original indices). -/
def fuseSuccAux (hashStr : String → Int) (strategy : String)
    (searchFn : String → Nat → Except Unit (List Triple)) (topK : Nat) :
    List (Nat × String) → List (Int × Triple) → List (Int × Triple)
  | [], d => d
  | (i, q) :: rest, d =>
    fuseSuccAux hashStr strategy searchFn topK rest
      (processVariation hashStr strategy i d (searchFn q (topK * 2)))

end MultiQuery

namespace Cache

/-- A concrete stand-in for `hashlib.md5(...).hexdigest()` in the C1
scenario: it distinguishes the two generated cache-key strings and, like any
md5 hex digest, returns 32 hex characters (in particular, no `:`). -/
def md5C1 : String → String := fun s =>
  if s = "what is ml:search_type:hybrid:top_k:5"
  then "0123456789abcdef0123456789abcdef"
  else "fedcba9876543210fedcba9876543210"

/-- The C1 scenario's freshly initialised cache: connected client, semantic
caching enabled, an embedding model sending every query to `[1, 0]` (so the
two queries of the scenario are perfect paraphrases of each other),
threshold 0.95, `decode_responses = True` (the constructor default). -/
def cacheC1 : RedisCache :=
  ⟨true, some ⟨[], false⟩, true, some (fun _ => some [1, 0]), 95 / 100, true⟩

/-- The C1 scenario's cache state after `set_query_results` has cached
query Q1 = `"what is ml"`. -/
def cacheC1After : RedisCache :=
  (setQueryResults md5C1 cacheC1 "what is ml" [("ml doc", 1)] 5 "hybrid" 3600).2

end Cache

namespace Db

/-- Claim C10's existential sentence: some store holding at least `k`
embedded chunks whose similarity reaches the threshold nevertheless gets
back fewer than `k` results. -/
def claimC10Exists : Prop :=
  ∃ (table : List ChunkRow) (k : Nat) (t : ℚ),
    k ≤ (table.filter (·.embedded)).countP (fun r => decide (t ≤ simOf r)) ∧
      (findSimilarChunksByEmbedding table k t).length < k

end Db

/-! ## Lemmas about the fusion dictionary -/

namespace MultiQuery

lemma lookupAssoc_updateAssoc_self (k : Int) (v : Triple) (d : List (Int × Triple)) :
    lookupAssoc k (updateAssoc k v d) = some v := by
  induction d with
  | nil => simp [updateAssoc, lookupAssoc]
  | cons kv rest ih =>
    obtain ⟨k', v'⟩ := kv
    by_cases h : k' = k
    · simp [updateAssoc, h, lookupAssoc]
    · simp [updateAssoc, h, lookupAssoc, ih]

lemma lookupAssoc_updateAssoc_ne (k k' : Int) (v : Triple) (d : List (Int × Triple))
    (h : k' ≠ k) : lookupAssoc k' (updateAssoc k v d) = lookupAssoc k' d := by
  induction d with
  | nil => simp [updateAssoc, lookupAssoc, Ne.symm h]
  | cons kv rest ih =>
    obtain ⟨k'', v''⟩ := kv
    by_cases hk : k'' = k
    · subst hk
      simp [updateAssoc, lookupAssoc, Ne.symm h]
    · simp only [updateAssoc, if_neg hk, lookupAssoc]
      by_cases hk' : k'' = k' <;> simp [hk', ih]

lemma lookupAssoc_processTriple_ne (h : String → Int) (strategy : String) (idx : Nat)
    (d : List (Int × Triple)) (t : Triple) (k : Int) (hne : chunkKey h t ≠ k) :
    lookupAssoc k (processTriple h strategy idx d t) = lookupAssoc k d := by
  unfold processTriple
  cases hl : lookupAssoc (chunkKey h t) d with
  | none => simp [hl, lookupAssoc_updateAssoc_ne _ _ _ _ (Ne.symm hne)]
  | some e =>
    obtain ⟨c, s, m⟩ := e
    simp [hl, lookupAssoc_updateAssoc_ne _ _ _ _ (Ne.symm hne)]

lemma avgOptFold_nil (o : Option ℚ) : avgOptFold o [] = o := by
  cases o <;> rfl

lemma avgOptFold_cons (o : Option ℚ) (s : ℚ) (ss : List ℚ) :
    avgOptFold o (s :: ss) =
      avgOptFold (some (match o with | none => s | some e => avg2 e s)) ss := by
  cases o <;> rfl

lemma average_fold (h : String → Int) (i : Nat) :
    ∀ (L : List Triple) (d : List (Int × Triple)) (k : Int),
      (lookupAssoc k (L.foldl (processTriple h "average" i) d)).map (fun t => t.2.1)
        = avgOptFold ((lookupAssoc k d).map (fun t => t.2.1)) (scoresOfKey h k L)
  | [], d, k => by
    simp [scoresOfKey, avgOptFold_nil]
  | t :: L, d, k => by
    rw [List.foldl_cons, average_fold h i L _ k]
    by_cases hk : chunkKey h t = k
    · subst hk
      have hline : scoresOfKey h (chunkKey h t) (t :: L)
          = t.2.1 :: scoresOfKey h (chunkKey h t) L := by
        simp [scoresOfKey]
      rw [hline, avgOptFold_cons]
      cases hl : lookupAssoc (chunkKey h t) d with
      | none =>
        have hstep : processTriple h "average" i d t = updateAssoc (chunkKey h t) t d := by
          unfold processTriple
          rw [hl]
        rw [hstep, lookupAssoc_updateAssoc_self]
        simp [hl]
      | some e =>
        obtain ⟨c, s, m⟩ := e
        have hstep : processTriple h "average" i d t
            = updateAssoc (chunkKey h t) (t.1, avg2 s t.2.1, t.2.2) d := by
          unfold processTriple
          rw [hl]
          dsimp only
          rw [if_neg (by decide : ¬ ("average" : String) = "max"),
            if_pos (rfl : ("average" : String) = "average")]
          rfl
        rw [hstep, lookupAssoc_updateAssoc_self]
        simp [hl]
    · have hline : scoresOfKey h k (t :: L) = scoresOfKey h k L := by
        simp [scoresOfKey, hk]
      rw [hline, lookupAssoc_processTriple_ne h "average" i d t k hk]

lemma processVariation_eq_foldl (h : String → Int) (strategy : String) (i : Nat)
    (d : List (Int × Triple)) (res : Except Unit (List Triple)) :
    processVariation h strategy i d res = (okTriples res).foldl (processTriple h strategy i) d := by
  cases res <;> rfl

lemma processTriple_average_idx (h : String → Int) (i : Nat)
    (d : List (Int × Triple)) (t : Triple) :
    processTriple h "average" i d t = processTriple h "average" 0 d t := by
  unfold processTriple
  cases lookupAssoc (chunkKey h t) d with
  | none => rfl
  | some e =>
    obtain ⟨c, s, m⟩ := e
    dsimp only
    rw [if_neg (by decide : ¬ ("average" : String) = "max"),
      if_pos (rfl : ("average" : String) = "average"),
      if_neg (by decide : ¬ ("average" : String) = "max"),
      if_pos (rfl : ("average" : String) = "average")]

lemma foldl_average_idx (h : String → Int) (i : Nat) :
    ∀ (L : List Triple) (d : List (Int × Triple)),
      L.foldl (processTriple h "average" i) d = L.foldl (processTriple h "average" 0) d
  | [], _ => rfl
  | t :: L, d => by
    rw [List.foldl_cons, List.foldl_cons, processTriple_average_idx,
      foldl_average_idx h i L]

lemma fuse_average_flat (h : String → Int)
    (sf : String → Nat → Except Unit (List Triple)) (topK : Nat) :
    ∀ (vars : List String) (i : Nat) (d : List (Int × Triple)),
      fuseAux h "average" sf topK i d vars
        = (flatTriples sf topK vars).foldl (processTriple h "average" 0) d
  | [], _, _ => rfl
  | q :: rest, i, d => by
    rw [flatTriples, List.foldl_append]
    show fuseAux h "average" sf topK (i + 1)
        (processVariation h "average" i d (sf q (topK * 2))) rest = _
    rw [fuse_average_flat h sf topK rest (i + 1) _, processVariation_eq_foldl,
      foldl_average_idx h i (okTriples (sf q (topK * 2))) d]

lemma updateAssoc_of_lookup_none (k : Int) (v : Triple) :
    ∀ (d : List (Int × Triple)), lookupAssoc k d = none → updateAssoc k v d = d ++ [(k, v)]
  | [], _ => rfl
  | (k', v') :: rest, hl => by
    by_cases hk : k' = k
    · simp [lookupAssoc, hk] at hl
    · simp only [lookupAssoc, if_neg hk] at hl
      simp [updateAssoc, hk, updateAssoc_of_lookup_none k v rest hl]

lemma lookupAssoc_append_single_ne (k k' : Int) (v : Triple)
    (d : List (Int × Triple)) (h1 : lookupAssoc k d = none) (h2 : k ≠ k') :
    lookupAssoc k (d ++ [(k', v)]) = none := by
  induction d with
  | nil => simp [lookupAssoc, Ne.symm h2]
  | cons kv rest ih =>
    obtain ⟨k'', v''⟩ := kv
    by_cases hk : k'' = k
    · simp [lookupAssoc, hk] at h1
    · simp only [lookupAssoc, if_neg hk] at h1 ⊢
      exact ih h1

lemma foldl_fresh (h : String → Int) (strategy : String) (i : Nat) :
    ∀ (L : List Triple) (d : List (Int × Triple)),
      (∀ t ∈ L, lookupAssoc (chunkKey h t) d = none) →
      (L.map (chunkKey h)).Nodup →
      L.foldl (processTriple h strategy i) d = d ++ L.map (fun t => (chunkKey h t, t))
  | [], d, _, _ => by simp
  | t :: L, d, hfresh, hnodup => by
    have hl : lookupAssoc (chunkKey h t) d = none := hfresh t (by simp)
    have hstep : processTriple h strategy i d t = d ++ [(chunkKey h t, t)] := by
      unfold processTriple
      rw [hl]
      exact updateAssoc_of_lookup_none _ _ _ hl
    rw [List.foldl_cons, hstep]
    rw [List.map_cons, List.nodup_cons] at hnodup
    have hfresh' : ∀ u ∈ L, lookupAssoc (chunkKey h u) (d ++ [(chunkKey h t, t)]) = none := by
      intro u hu
      refine lookupAssoc_append_single_ne _ _ _ _ (hfresh u (by simp [hu])) ?_
      intro heq
      exact hnodup.1 (heq ▸ List.mem_map_of_mem (chunkKey h) hu)
    rw [foldl_fresh h strategy i L _ hfresh' hnodup.2, List.append_assoc]
    rfl

lemma fuse_succ (h : String → Int) (strategy : String)
    (sf : String → Nat → Except Unit (List Triple)) (topK : Nat) :
    ∀ (vars : List String) (i : Nat) (d : List (Int × Triple)),
      fuseAux h strategy sf topK i d vars
        = fuseSuccAux h strategy sf topK
            ((List.enumFrom i vars).filter (fun p => (sf p.2 (topK * 2)).isOk)) d
  | [], _, _ => rfl
  | q :: rest, i, d => by
    show fuseAux h strategy sf topK (i + 1)
        (processVariation h strategy i d (sf q (topK * 2))) rest = _
    cases hq : sf q (topK * 2) with
    | error e =>
      have hfilter : (List.enumFrom i (q :: rest)).filter
          (fun p => (sf p.2 (topK * 2)).isOk)
          = (List.enumFrom (i + 1) rest).filter (fun p => (sf p.2 (topK * 2)).isOk) := by
        simp [List.enumFrom, hq, Except.isOk, Except.toBool]
      rw [hfilter]
      show fuseAux h strategy sf topK (i + 1) d rest = _
      exact fuse_succ h strategy sf topK rest (i + 1) d
    | ok l =>
      have hfilter : (List.enumFrom i (q :: rest)).filter
          (fun p => (sf p.2 (topK * 2)).isOk)
          = (i, q) :: (List.enumFrom (i + 1) rest).filter
              (fun p => (sf p.2 (topK * 2)).isOk) := by
        simp [List.enumFrom, hq, Except.isOk, Except.toBool]
      rw [hfilter, fuseSuccAux, hq]
      exact fuse_succ h strategy sf topK rest (i + 1) _

lemma snd_mem_of_mem_enumFrom :
    ∀ (l : List String) (i : Nat) (p : Nat × String), p ∈ List.enumFrom i l → p.2 ∈ l
  | [], _, _, hp => by simp [List.enumFrom] at hp
  | q :: rest, i, p, hp => by
    rw [List.enumFrom] at hp
    rcases List.mem_cons.1 hp with h | h
    · subst h
      simp
    · exact List.mem_cons_of_mem _ (snd_mem_of_mem_enumFrom rest (i + 1) p h)

lemma filter_map_filter_filterMap {α β : Type} (p : α → Bool) (f : α → β)
    (q : β → Bool) :
    ∀ L : List α,
      ((L.filter p).map f).filter q
        = L.filterMap (fun a =>
            if p a then (if q (f a) then some (f a) else none) else none)
  | [] => rfl
  | a :: L => by
    rw [List.filter_cons, List.filterMap_cons]
    cases hp : p a with
    | false =>
      simp only [Bool.false_eq_true, if_false]
      exact filter_map_filter_filterMap p f q L
    | true =>
      simp only [if_true, List.map_cons, List.filter_cons]
      cases hq : q (f a) with
      | false =>
        simp only [Bool.false_eq_true, if_false]
        exact filter_map_filter_filterMap p f q L
      | true =>
        simp only [if_true]
        rw [filter_map_filter_filterMap p f q L]

lemma keepLineSpec_eq (l : String) :
    keepLineSpec l
      = if (l ≠ "" && !bannedStart l) then
          (if stripEnum l ≠ "" then some (stripEnum l) else none)
        else none := by
  by_cases h1 : l = "" <;> by_cases h2 : bannedStart l <;>
    by_cases h3 : stripEnum l = "" <;> simp [keepLineSpec, h1, h2, h3]

lemma parse_filter_eq_filterMap (L : List String) :
    ((L.filter (fun l => l ≠ "" && !bannedStart l)).map stripEnum).filter (· ≠ "")
      = L.filterMap keepLineSpec := by
  rw [filter_map_filter_filterMap]
  induction L with
  | nil => rfl
  | cons l L ih =>
    rw [List.filterMap_cons, List.filterMap_cons, ih, keepLineSpec_eq]
    by_cases h3 : stripEnum l = "" <;> simp [h3]

end MultiQuery

namespace Cache

lemma getStore_setStore_self (s : List (String × CacheVal)) (k : String) (v : CacheVal) :
    getStore (setStore s k v) k = some v := by
  induction s with
  | nil => simp [setStore, getStore]
  | cons kv rest ih =>
    by_cases hk : kv.1 = k
    · simp [setStore, hk, getStore]
    · simp [setStore, hk, getStore, ih]

end Cache

namespace Db

lemma simOf_anti {a b : ChunkRow} (h : a.distance ≤ b.distance) : simOf b ≤ simOf a :=
  max_le_max le_rfl (by linarith)

lemma take_all_pass (t : ℚ) :
    ∀ (l : List ChunkRow) (k : Nat), List.Sorted distLe l →
      k ≤ l.countP (fun r => decide (t ≤ simOf r)) →
      ∀ r ∈ l.take k, t ≤ simOf r
  | _, 0, _, _ => by simp
  | [], k + 1, _, hc => by
    rw [List.countP_nil] at hc
    omega
  | x :: l, k + 1, hs, hc => by
    rw [List.sorted_cons] at hs
    by_cases hx : t ≤ simOf x
    · intro r hr
      rw [List.take_succ_cons] at hr
      rcases List.mem_cons.1 hr with h | h
      · exact h ▸ hx
      · refine take_all_pass t l k hs.2 ?_ r h
        rw [List.countP_cons, if_pos (by simpa using hx)] at hc
        omega
    · exfalso
      have hzero : l.countP (fun r => decide (t ≤ simOf r)) = 0 := by
        refine List.countP_eq_zero.2 ?_
        intro y hy
        simp only [decide_eq_true_eq]
        intro hty
        exact hx (le_trans hty (simOf_anti (hs.1 y hy)))
      rw [List.countP_cons, hzero, if_neg (by simpa using hx)] at hc
      omega

lemma findSimilar_eq (table : List ChunkRow) (limit : Nat) (t : ℚ) :
    findSimilarChunksByEmbedding table limit t
      = (((List.insertionSort distLe (table.filter (·.embedded))).take limit).filter
            (fun r => decide (t ≤ simOf r))).map (fun r => (r, simOf r)) := by
  unfold findSimilarChunksByEmbedding
  generalize (List.insertionSort distLe (table.filter (·.embedded))).take limit = L
  induction L with
  | nil => rfl
  | cons a L ih =>
    rw [List.filterMap_cons, List.filter_cons]
    by_cases h : t ≤ simOf a <;> simp [h, ih]

lemma findSimilar_length (table : List ChunkRow) (k : Nat) (t : ℚ)
    (hc : k ≤ (table.filter (·.embedded)).countP (fun r => decide (t ≤ simOf r))) :
    (findSimilarChunksByEmbedding table k t).length = k := by
  have hperm := List.perm_insertionSort distLe (table.filter (·.embedded))
  have hsorted := List.sorted_insertionSort distLe (table.filter (·.embedded))
  have hcS : k ≤ (List.insertionSort distLe (table.filter (·.embedded))).countP
      (fun r => decide (t ≤ simOf r)) := by
    rw [hperm.countP_eq]
    exact hc
  have hall := take_all_pass t _ k hsorted hcS
  have hlenS : k ≤ (List.insertionSort distLe (table.filter (·.embedded))).length :=
    le_trans hcS (List.countP_le_length _)
  rw [findSimilar_eq]
  have hfilter : ((List.insertionSort distLe (table.filter (·.embedded))).take k).filter
      (fun r => decide (t ≤ simOf r))
      = (List.insertionSort distLe (table.filter (·.embedded))).take k :=
    List.filter_eq_self.2 (fun r hr => by simpa using hall r hr)
  rw [hfilter, List.length_map, List.length_take]
  omega

end Db

/-! ## Claims C4–C8: multi-query fusion and variation generation -/

/-- C4: corrected.  Under the `'average'` strategy the fused score of a chunk
seen `m` times is not the arithmetic mean of its scores: the code keeps a
running pairwise average, so the fused score is the left fold of
`(acc, s) ↦ (acc + s) / 2` over the scores in order of appearance (which
equals the arithmetic mean only for `m ≤ 2`). -/
theorem claim_C4_theorem (h : String → Int)
    (sf : String → Nat → Except Unit (List MultiQuery.Triple)) (topK : Nat)
    (vars : List String) (k : Int) :
    (MultiQuery.lookupAssoc k (MultiQuery.fuseDict h "average" sf topK vars)).map
        (fun t => t.2.1)
      = MultiQuery.avgOptFold none
          (MultiQuery.scoresOfKey h k (MultiQuery.flatTriples sf topK vars)) := by
  rw [MultiQuery.fuseDict, MultiQuery.fuse_average_flat]
  simpa [MultiQuery.lookupAssoc] using
    MultiQuery.average_fold h 0 (MultiQuery.flatTriples sf topK vars) [] k

/-- C4: counterexample to the claim as stated.  A chunk (id 7) retrieved by
three variations with scores 0, 0 and 1 ends up with fused score 1/2 — the
arithmetic mean would be 1/3. -/
theorem claim_C4_counterexample :
    (MultiQuery.lookupAssoc 7
        (MultiQuery.fuseDict (fun _ => 0) "average"
          (fun q _ =>
            if q = "v2" then .ok [("c", 1, ⟨some 7, "f"⟩)]
            else .ok [("c", 0, ⟨some 7, "f"⟩)])
          5 ["q", "v1", "v2"])).map (fun t => t.2.1) = some (1 / 2)
      ∧ ((1 : ℚ) / 2) ≠ (0 + 0 + 1) / 3 := by
  constructor
  · rw [MultiQuery.fuseDict, MultiQuery.fuse_average_flat, MultiQuery.average_fold]
    have hsc : MultiQuery.scoresOfKey (fun _ => 0) 7
        (MultiQuery.flatTriples
          (fun q _ =>
            if q = "v2" then .ok [("c", 1, ⟨some 7, "f"⟩)]
            else .ok [("c", 0, ⟨some 7, "f"⟩)])
          5 ["q", "v1", "v2"]) = [0, 0, 1] := by decide
    rw [hsc]
    show some (MultiQuery.avg2 (MultiQuery.avg2 0 0) 1) = some (1 / 2)
    norm_num [MultiQuery.avg2]
  · norm_num

/-- C5: corrected.  The parsing of collaborator output is per-line, via
`keepLineSpec`: empty lines are dropped, but lines starting with `1.`–`5.`,
`-` or `*` are dropped entirely rather than trimmed; only the markers
`1) `…`9) ` and `6. `…`9. ` are removed with the line kept. -/
theorem claim_C5_theorem :
    (∀ text, MultiQuery.parseVariations text
        = ((pySplitNl (pyStrip text)).map pyStrip).filterMap MultiQuery.keepLineSpec)
      ∧ MultiQuery.keepLineSpec "1. foo" = none
      ∧ MultiQuery.keepLineSpec "6. foo" = some "foo"
      ∧ MultiQuery.keepLineSpec "2) bar" = some "bar"
      ∧ MultiQuery.keepLineSpec "" = none := by
  refine ⟨fun text => ?_, by decide, by decide, by decide, by decide⟩
  exact MultiQuery.parse_filter_eq_filterMap _

/-- C5: the claim as stated is false: the collaborator line `"1. foo"`
carries a leading enumeration marker, yet its variation is discarded, not
kept as `"foo"`. -/
theorem claim_C5_counterexample :
    MultiQuery.parseVariations "1. foo\n2) bar" = ["bar"]
      ∧ "foo" ∉ MultiQuery.parseVariations "1. foo\n2) bar" := by
  refine ⟨by decide, by decide⟩

/-- C6: confirmed.  `generate_query_variations` returns between 1 and `n+1`
queries, the first of which is always the original query, and any
collaborator failure degrades to exactly `[query]` (the model is a total
function: no exception can propagate). -/
theorem claim_C6_theorem (enabled : Bool) (n : Nat) (resp : Except Unit String)
    (q : String) :
    (MultiQuery.generateQueryVariations enabled n resp q).head? = some q
      ∧ 1 ≤ (MultiQuery.generateQueryVariations enabled n resp q).length
      ∧ (MultiQuery.generateQueryVariations enabled n resp q).length ≤ n + 1
      ∧ (∀ u : Unit, resp = .error u →
          MultiQuery.generateQueryVariations enabled n resp q = [q]) := by
  unfold MultiQuery.generateQueryVariations
  cases enabled with
  | false => simp
  | true =>
    cases resp with
    | error u => simp
    | ok text =>
      refine ⟨rfl, by simp, ?_, by intro u hu; cases hu⟩
      simp only [Bool.not_true, Bool.false_eq_true, if_false, List.length_cons,
        List.length_take]
      omega

/-- C6: witness instantiating the failure clause of `claim_C6_theorem`. -/
theorem claim_C6_witness :
    MultiQuery.generateQueryVariations true 3 (.error ()) "q" = ["q"] :=
  (claim_C6_theorem true 3 (.error ()) "q").2.2.2 () rfl

/-- C7: confirmed.  Fusion tolerates partial failure: fusing all variations
equals fusing just the variations whose retrieval succeeded (with their
original indices), and when every variation's retrieval raises the result is
the empty list (the model is total: no exception propagates). -/
theorem claim_C7_theorem :
    (∀ (h : String → Int) (strategy : String)
        (sf : String → Nat → Except Unit (List MultiQuery.Triple)) (topK : Nat)
        (vars : List String),
      MultiQuery.fuseDict h strategy sf topK vars
        = MultiQuery.fuseSuccAux h strategy sf topK
            ((List.enumFrom 0 vars).filter (fun p => (sf p.2 (topK * 2)).isOk)) [])
      ∧ (∀ (h : String → Int) (strategy : String) (enabled : Bool) (n : Nat)
          (resp : Except Unit String) (q : String)
          (sf : String → Nat → Except Unit (List MultiQuery.Triple)) (topK : Nat),
          (∀ v ∈ MultiQuery.generateQueryVariations enabled n resp q,
            sf v (topK * 2) = .error ()) →
          MultiQuery.retrieveWithMultiQuery h strategy enabled n resp q sf topK = []) := by
  constructor
  · intro h strategy sf topK vars
    exact MultiQuery.fuse_succ h strategy sf topK vars 0 []
  · intro h strategy enabled n resp q sf topK hfail
    unfold MultiQuery.retrieveWithMultiQuery
    rw [MultiQuery.fuseDict, MultiQuery.fuse_succ]
    have hnil : (List.enumFrom 0 (MultiQuery.generateQueryVariations enabled n resp q)).filter
        (fun p => (sf p.2 (topK * 2)).isOk) = [] := by
      refine List.filter_eq_nil_iff.2 ?_
      intro p hp
      rw [hfail p.2 (MultiQuery.snd_mem_of_mem_enumFrom _ 0 p hp)]
      simp [Except.isOk, Except.toBool]
    rw [hnil]
    simp [MultiQuery.fuseSuccAux, MultiQuery.rankResults]

/-- C7: witness with every variation's retrieval failing. -/
theorem claim_C7_witness :
    MultiQuery.retrieveWithMultiQuery (fun _ => 0) "max" true 3 (.ok "a\nb") "q"
        (fun _ _ => .error ()) 5 = [] :=
  claim_C7_theorem.2 (fun _ => 0) "max" true 3 (.ok "a\nb") "q" (fun _ _ => .error ())
    5 (fun _ _ => rfl)

/-- C8: corrected.  Single-variation fusion under `'max'` reduces to plain
retrieval provided the retrieval function is consistent: the over-fetched
list `retrieve_fn(q, 2k)` is sorted by descending score, has pairwise
distinct chunk keys, and `retrieve_fn(q, k)` is its length-`k` prefix.  Then
the fused result equals `retrieve_fn(q, k)` truncated to `k`. -/
theorem claim_C8_theorem (h : String → Int) (n : Nat) (resp : Except Unit String)
    (q : String) (sf : String → Nat → Except Unit (List MultiQuery.Triple))
    (topK : Nat) (res2 resk : List MultiQuery.Triple)
    (h2k : sf q (topK * 2) = .ok res2)
    (hsorted : List.Sorted MultiQuery.scoreGe res2)
    (hkeys : (res2.map (MultiQuery.chunkKey h)).Nodup)
    (hret : sf q topK = .ok resk)
    (hpre : resk = res2.take topK) :
    MultiQuery.retrieveWithMultiQuery h "max" false n resp q sf topK
      = resk.take topK := by
  unfold MultiQuery.retrieveWithMultiQuery
  have hvars : MultiQuery.generateQueryVariations false n resp q = [q] := rfl
  rw [hvars]
  have hdict : MultiQuery.fuseDict h "max" sf topK [q]
      = res2.map (fun t => (MultiQuery.chunkKey h t, t)) := by
    show MultiQuery.processVariation h "max" 0 [] (sf q (topK * 2)) = _
    rw [h2k, MultiQuery.processVariation_eq_foldl]
    have hfr := MultiQuery.foldl_fresh h "max" 0 res2 [] (fun _ _ => rfl) hkeys
    simpa [MultiQuery.okTriples] using hfr
  rw [hdict]
  unfold MultiQuery.rankResults
  rw [List.map_map]
  have hcomp : ((·.2) ∘ fun t => (MultiQuery.chunkKey h t, t))
      = (id : MultiQuery.Triple → MultiQuery.Triple) := rfl
  rw [hcomp, List.map_id, hsorted.insertionSort_eq, hpre, List.take_take, min_self]

/-- C8: witness with a consistent two-result retrieval function. -/
theorem claim_C8_witness :
    MultiQuery.retrieveWithMultiQuery (fun _ => 0) "max" false 0 (.error ()) "q"
        (fun _ m =>
          if m = 2 then
            .ok [("a", (2 : ℚ), ⟨some 1, "f"⟩), ("b", 1, ⟨some 2, "f"⟩)]
          else .ok [("a", (2 : ℚ), ⟨some 1, "f"⟩)]) 1
      = [(("a", (2 : ℚ), ⟨some 1, "f"⟩) : MultiQuery.Triple)].take 1 :=
  claim_C8_theorem (fun _ => 0) 0 (.error ()) "q" _ 1
    [("a", (2 : ℚ), ⟨some 1, "f"⟩), ("b", 1, ⟨some 2, "f"⟩)]
    [("a", (2 : ℚ), ⟨some 1, "f"⟩)]
    rfl (by decide) (by decide) rfl rfl

/-- C8: the claim as stated (for every retrieval function) is false: an
inconsistent retrieval function makes single-variation fusion differ from
plain truncated retrieval, because fusion over-fetches with `top_k * 2`. -/
theorem claim_C8_counterexample :
    MultiQuery.retrieveWithMultiQuery (fun _ => 0) "max" false 0 (.error ()) "q"
        (fun _ m =>
          if m = 1 then .ok [("b", (2 : ℚ), ⟨some 1, "f"⟩)]
          else .ok [("a", (1 : ℚ), ⟨some 2, "f"⟩)]) 1
      = [("a", (1 : ℚ), ⟨some 2, "f"⟩)]
    ∧ (fun (_ : String) (m : Nat) =>
          if m = 1 then .ok [("b", (2 : ℚ), (⟨some 1, "f"⟩ : MultiQuery.RMeta))]
          else .ok [("a", (1 : ℚ), ⟨some 2, "f"⟩)] :
          String → Nat → Except Unit (List MultiQuery.Triple)) "q" 1
        = .ok [("b", (2 : ℚ), ⟨some 1, "f"⟩)]
    ∧ ([(("b", (2 : ℚ), (⟨some 1, "f"⟩ : MultiQuery.RMeta)) : MultiQuery.Triple)].take 1
        ≠ [(("a", (1 : ℚ), ⟨some 2, "f"⟩) : MultiQuery.Triple)]) := by
  refine ⟨by decide, rfl, by decide⟩

/-! ## Claim C3: configuration validation -/

/-- C3: corrected.  An out-of-range `recency_weight` makes `validate` return
`false`, but the configuration is not rejected: `get_config` only logs a
warning and returns the very same configuration object, unclamped and
usable. -/
theorem claim_C3_theorem (c : Config.RAGConfig)
    (h : c.recencyWeight < 0 ∨ 1 < c.recencyWeight) :
    Config.validate c = false ∧ Config.getConfig c = c := by
  refine ⟨?_, by rw [Config.getConfig, ite_self]⟩
  have hb : (decide (0 ≤ c.recencyWeight) && decide (c.recencyWeight ≤ 1)) = false := by
    rcases h with h | h
    · have hn : ¬ (0 ≤ c.recencyWeight) := not_le.mpr h
      simp [hn]
    · have hn : ¬ (c.recencyWeight ≤ 1) := not_le.mpr h
      simp [hn]
  rw [Config.validate, hb, Bool.and_false]

/-- C3: the claim as stated is false at a concrete input: a configuration
with `recency_weight = 2` fails validation yet is constructed and returned
unchanged by `get_config` — nothing fails, nothing is clamped. -/
theorem claim_C3_counterexample :
    Config.validate ⟨1500, 200, 0, 2, 3, 300⟩ = false
      ∧ Config.getConfig ⟨1500, 200, 0, 2, 3, 300⟩ = ⟨1500, 200, 0, 2, 3, 300⟩
      ∧ ¬ ((0 : ℚ) ≤ 2 ∧ (2 : ℚ) ≤ 1) := by
  refine ⟨by decide, by decide, by norm_num⟩

/-- C3: witness instantiating `claim_C3_theorem` at `recency_weight = 3`. -/
theorem claim_C3_witness :
    Config.validate ⟨1500, 200, 0, 3, 3, 300⟩ = false
      ∧ Config.getConfig ⟨1500, 200, 0, 3, 3, 300⟩ = ⟨1500, 200, 0, 3, 3, 300⟩ :=
  claim_C3_theorem ⟨1500, 200, 0, 3, 3, 300⟩ (Or.inr (by norm_num))

/-! ## Claim C10: vector search with threshold after LIMIT -/

/-- C10: corrected.  The threshold is indeed applied only after `LIMIT k`,
every returned pair satisfies `similarity ≥ threshold` with
`similarity = max(0, 1 - distance)`, and the list is ordered most-similar
first; but because the similarity is monotone in the ordering distance, a
store holding at least `k` qualifying chunks always gets back exactly `k`
results — never fewer. -/
theorem claim_C10_theorem (table : List Db.ChunkRow) (k : Nat) (t : ℚ) :
    (∀ p ∈ Db.findSimilarChunksByEmbedding table k t,
        t ≤ p.2 ∧ p.2 = Db.simOf p.1)
      ∧ (Db.findSimilarChunksByEmbedding table k t).Pairwise (fun a b => b.2 ≤ a.2)
      ∧ (k ≤ (table.filter (·.embedded)).countP (fun r => decide (t ≤ Db.simOf r)) →
          (Db.findSimilarChunksByEmbedding table k t).length = k) := by
  refine ⟨?_, ?_, Db.findSimilar_length table k t⟩
  · rw [Db.findSimilar_eq]
    intro p hp
    rcases List.mem_map.1 hp with ⟨r, hr, rfl⟩
    have := List.mem_filter.1 hr
    exact ⟨by simpa using this.2, rfl⟩
  · rw [Db.findSimilar_eq]
    refine List.pairwise_map.2 ?_
    have hsorted := List.sorted_insertionSort Db.distLe (table.filter (·.embedded))
    have hsub : List.Sublist
        (((List.insertionSort Db.distLe (table.filter (·.embedded))).take k).filter
          (fun r => decide (t ≤ Db.simOf r)))
        (List.insertionSort Db.distLe (table.filter (·.embedded))) :=
      (List.filter_sublist _).trans (List.take_sublist _ _)
    exact (hsorted.sublist hsub).imp (fun h => Db.simOf_anti h)

/-- C10: the claim's existential part is false: there is no store, limit and
threshold for which at least `k` qualifying chunks yield fewer than `k`
results, because the `LIMIT k` rows are the `k` smallest distances and the
threshold predicate is downward closed in distance. -/
theorem claim_C10_counterexample : Db.claimC10Exists = False := by
  refine eq_false ?_
  rintro ⟨table, k, t, hc, hlen⟩
  rw [Db.findSimilar_length table k t hc] at hlen
  exact lt_irrefl k hlen

/-- C10: witness for `claim_C10_theorem` on a two-row store where both rows
pass the threshold: exactly two results come back. -/
theorem claim_C10_witness :
    (Db.findSimilarChunksByEmbedding [⟨1, true, 0⟩, ⟨2, true, 1⟩] 2 0).length = 2 :=
  (claim_C10_theorem [⟨1, true, 0⟩, ⟨2, true, 1⟩] 2 0).2.2 (by
    norm_num [List.countP_cons, Db.simOf])

/-! ## Claim C9: cache failure semantics -/

/-- C9: confirmed.  (a) When the connection fails at initialisation the cache
is disabled: every get is a miss and every set reports failure.  (b) A
backend error during a lookup degrades to a miss (the model is total: the
`RedisError` is caught, nothing propagates).  (c) When computing the query
embedding fails during `set`, the exact-key entry is nevertheless persisted
and the call reports success. -/
theorem claim_C9_theorem :
    (∀ (md5 : String → String) (sqrtQ : ℚ → ℚ) (c : Cache.RedisCache) (u : Unit)
        (q : String) (k : Nat) (st : String) (R : List (String × ℚ)) (ttl : Nat),
      Cache.getQueryResults md5 sqrtQ (Cache.initClient c (.error u)) q k st = none
        ∧ (Cache.setQueryResults md5 (Cache.initClient c (.error u)) q R k st ttl).1
            = false)
      ∧ (∀ (md5 : String → String) (sqrtQ : ℚ → ℚ) (c : Cache.RedisCache)
          (cl : Cache.Client) (q : String) (k : Nat) (st : String),
          c.client = some cl → cl.failing = true →
          Cache.getQueryResults md5 sqrtQ c q k st = none)
      ∧ (∀ (md5 : String → String) (c : Cache.RedisCache) (cl : Cache.Client)
          (q : String) (R : List (String × ℚ)) (k : Nat) (st : String) (ttl : Nat),
          c.enabled = true → c.client = some cl → cl.failing = false →
          Cache.computeQueryEmbedding c q = none →
          (Cache.setQueryResults md5 c q R k st ttl).1 = true
            ∧ ∃ cl', (Cache.setQueryResults md5 c q R k st ttl).2.client = some cl'
                ∧ Cache.getStore cl'.store (Cache.generateCacheKey md5 q k st)
                    = some (.results R)) := by
  refine ⟨?_, ?_, ?_⟩
  · intro md5 sqrtQ c u q k st R ttl
    exact ⟨by simp [Cache.initClient, Cache.getQueryResults],
      by simp [Cache.initClient, Cache.setQueryResults]⟩
  · intro md5 sqrtQ c cl q k st hcl hfail
    unfold Cache.getQueryResults
    rw [hcl]
    by_cases he : c.enabled
    · simp [he, hfail]
    · simp [he]
  · intro md5 c cl q R k st ttl hen hcl hfail hemb
    have hset : Cache.setQueryResults md5 c q R k st ttl
        = (true, { c with client := some (Cache.Client.mk (Cache.setStore cl.store (Cache.generateCacheKey md5 q k st) (Cache.CacheVal.results R)) cl.failing) }) := by
      unfold Cache.setQueryResults
      rw [hen, hcl, hfail, hemb]
      by_cases hb : (c.semanticEnabled && c.embModel.isSome) = true <;> simp [hb, hfail]
    rw [hset]
    exact ⟨rfl, ⟨_, rfl, Cache.getStore_setStore_self _ _ _⟩⟩

/-- C9: witness: a failed connection yields a miss, and a set whose
embedding computation fails still succeeds (persisting the exact key). -/
theorem claim_C9_witness :
    Cache.getQueryResults (fun _ => "h") id
        (Cache.initClient ⟨true, some ⟨[], false⟩, true, none, 1, true⟩ (.error ()))
        "q" 5 "hybrid" = none
      ∧ (Cache.setQueryResults (fun _ => "h")
          ⟨true, some ⟨[], false⟩, true, some (fun _ => none), 1, true⟩
          "q" [("r", 1)] 5 "hybrid" 3600).1 = true :=
  ⟨(claim_C9_theorem.1 (fun _ => "h") id
      ⟨true, some ⟨[], false⟩, true, none, 1, true⟩ () "q" 5 "hybrid"
      [("r", 1)] 3600).1,
   (claim_C9_theorem.2.2 (fun _ => "h")
      ⟨true, some ⟨[], false⟩, true, some (fun _ => none), 1, true⟩
      ⟨[], false⟩ "q" [("r", 1)] 5 "hybrid" 3600 rfl rfl rfl rfl).1⟩

/-! ## Claim C2: recency-weighted scoring -/

/-- C2: corrected.  The relevance score attached to every returned chunk is
the raw cosine similarity between the query embedding and that chunk's
stored embedding — no recency term enters: the contents and scores of the
ranking are invariant under arbitrary replacement of the chunk metadata
(including `created_at`), and each returned score is exactly the cosine
similarity of some stored embedding row. -/
theorem claim_C2_theorem :
    (∀ (sqrtQ : ℚ → ℚ) (encode : String → List ℚ) (docs : List String)
        (embs : Option (List (List ℚ))) (M M' : List Memory.DocMeta)
        (q : String) (topK : Nat),
      (Memory.searchRelevantDocuments sqrtQ encode ⟨docs, embs, M⟩ q topK).map
          (fun t => (t.1, t.2.1))
        = (Memory.searchRelevantDocuments sqrtQ encode ⟨docs, embs, M'⟩ q topK).map
            (fun t => (t.1, t.2.1)))
      ∧ (∀ (sqrtQ : ℚ → ℚ) (encode : String → List ℚ) (st : Memory.MemoryState)
          (q : String) (topK : Nat) (t : String × ℚ × Memory.DocMeta),
          t ∈ Memory.searchRelevantDocuments sqrtQ encode st q topK →
          ∃ embs i, st.embeddings = some embs ∧ i < embs.length
            ∧ t.2.1 = Cache.cosineSimilarity sqrtQ (encode q) (embs.getD i [])
            ∧ t.1 = st.documents.getD i "") := by
  constructor
  · intro sqrtQ encode docs embs M M' q topK
    cases embs with
    | none => rfl
    | some e =>
      unfold Memory.searchRelevantDocuments
      by_cases h : docs.length = 0
      · simp [h]
      · simp only [h, if_false, List.map_map]
        rfl
  · intro sqrtQ encode st q topK t ht
    unfold Memory.searchRelevantDocuments at ht
    cases hembs : st.embeddings with
    | none =>
      rw [hembs] at ht
      simp at ht
    | some embs =>
      rw [hembs] at ht
      dsimp only at ht
      by_cases hlen : st.documents.length = 0
      · rw [if_pos hlen] at ht
        simp at ht
      · rw [if_neg hlen] at ht
        rcases List.mem_map.1 ht with ⟨i, hi, rfl⟩
        have hiS : i ∈ Memory.argsortAsc (embs.map
            (fun row => Cache.cosineSimilarity sqrtQ (encode q) row)) :=
          List.mem_reverse.1 (List.mem_of_mem_take hi)
        have hrange := (List.perm_insertionSort _ _).mem_iff.1 hiS
        have hilt : i < embs.length := by
          simpa using List.mem_range.1 hrange
        refine ⟨embs, i, rfl, hilt, ?_, rfl⟩
        show (embs.map (fun row => Cache.cosineSimilarity sqrtQ (encode q) row)).getD i 0
          = Cache.cosineSimilarity sqrtQ (encode q) (embs.getD i [])
        rw [List.getD_eq_getElem _ _ (by simpa using hilt),
          List.getD_eq_getElem _ _ hilt, List.getElem_map]

/-- C2: witness for the membership clause of `claim_C2_theorem`: on a
one-chunk store the returned score is the cosine similarity of row 0. -/
theorem claim_C2_witness :
    ∃ embs i, (some [[(1 : ℚ), 0]] : Option (List (List ℚ))) = some embs
      ∧ i < embs.length
      ∧ ((("d1" : String), Cache.cosineSimilarity id [(1 : ℚ), 0] [(1 : ℚ), 0],
          (⟨"f", "PDF", 5⟩ : Memory.DocMeta)) : String × ℚ × Memory.DocMeta).2.1
          = Cache.cosineSimilarity id ((fun _ => [(1 : ℚ), 0]) "q") (embs.getD i [])
      ∧ "d1" = (["d1"] : List String).getD i "" :=
  claim_C2_theorem.2 id (fun _ => [(1 : ℚ), 0])
    ⟨["d1"], some [[(1 : ℚ), 0]], [⟨"f", "PDF", 5⟩]⟩ "q" 5
    ("d1", Cache.cosineSimilarity id [(1 : ℚ), 0] [(1 : ℚ), 0], ⟨"f", "PDF", 5⟩)
    (by simp [Memory.searchRelevantDocuments, Memory.argsortAsc,
      List.insertionSort, List.orderedInsert])

/-- C2: the claim as stated is false: with two equally-old chunks scoring 1
and 0 under the default `recency_weight = 0.15`, no recency factor value can
make the blended formula reproduce the scores the code actually attaches —
the code ranks by raw similarity alone. -/
theorem claim_C2_counterexample :
    ((Memory.searchRelevantDocuments id (fun _ => [1, 0])
        ⟨["d1", "d2"], some [[1, 0], [0, 1]], [⟨"f", "PDF", 5⟩, ⟨"g", "PDF", 5⟩]⟩
        "q" 5).map (fun t => t.2.1)) = [1, 0]
      ∧ ¬ ∃ r : ℚ, ((1 - 3 / 20) * 1 + (3 / 20) * r = 1
          ∧ (1 - 3 / 20) * 0 + (3 / 20) * r = 0) := by
  constructor
  · have hcos1 : Cache.cosineSimilarity id [(1 : ℚ), 0] [(1 : ℚ), 0] = 1 := by
      norm_num [Cache.cosineSimilarity, Cache.dotQ]
    have hcos2 : Cache.cosineSimilarity id [(1 : ℚ), 0] [(0 : ℚ), 1] = 0 := by
      norm_num [Cache.cosineSimilarity, Cache.dotQ]
    unfold Memory.searchRelevantDocuments
    norm_num [hcos1, hcos2, Memory.argsortAsc, List.insertionSort,
      List.orderedInsert, List.range_succ]
  · rintro ⟨r, h1, h2⟩
    have hr1 : r = 1 := by linarith
    rw [hr1] at h2
    norm_num at h2

/-! ## Claim C1: semantic cache hit -/

/-- C1: the code cannot produce a semantic cache hit.  At a concrete failing
input: query Q1 is cached with semantic caching enabled (the write succeeds
and the embedding twin is stored under `query_emb:<md5hex>`), the paraphrase
Q2 has cosine similarity 1 ≥ the 0.95 threshold against Q1's stored
embedding, yet `get_query_results(Q2, 5, "hybrid")` returns `none`: the
semantic scan looks for keys matching `query_emb:5:hybrid:*`, a pattern no
stored embedding key (an md5 hex digest after the prefix) can ever match. -/
theorem claim_C1_theorem :
    (Cache.setQueryResults Cache.md5C1 Cache.cacheC1 "what is ml" [("ml doc", 1)]
        5 "hybrid" 3600).1 = true
      ∧ (Cache.cacheC1After.client.map (fun cl =>
          Cache.getStore cl.store "query_emb:0123456789abcdef0123456789abcdef"))
          = some (some (Cache.CacheVal.emb [1, 0]))
      ∧ Cache.cosineSimilarity id [1, 0] [1, 0] = 1
      ∧ Cache.cacheC1.semanticThreshold ≤ 1
      ∧ Cache.getQueryResults Cache.md5C1 id Cache.cacheC1After "explain ml"
          5 "hybrid" = none := by
  refine ⟨by decide, by decide, ?_, ?_, by decide⟩
  · norm_num [Cache.cosineSimilarity, Cache.dotQ]
  · show (95 : ℚ) / 100 ≤ 1
    norm_num
